import Mathlib

/-!
Shallow embedding of the film data-warehouse ETL pipeline
(`etl_film_datawarehouse.py`): numeric/date cleaning, the row transformer,
and the dimension/fact loaders with their insert-or-skip-on-conflict and
commit/rollback behaviour, together with theorems checking the
specification's claims against this embedding.

Conventions of the embedding:
* pandas/NumPy absence (`NaN` / `None`) is `Option.none`;
* Python floats are rationals (`ℚ`);
* a parsed date is a rational day number counted from the Excel epoch
  1899-12-30 (the epoch itself is day 0);
* a Python-level exception inside a loader's `try` block is an attempt that
  evaluates to `Option.none`;
* the warehouse connection is modelled by explicit committed/current table
  states: `commit` publishes the current state, `rollback` resets the
  current state to the committed one.
-/

namespace FilmDW

/-- External collaborators used by the script and treated as parameters:
Python's `float` on strings, `pd.to_datetime` on strings (where a `none`
result models a raised exception), and the calendar accessors
`date.year`, `date.month`, `date.strftime` of a datetime value. -/
structure Ext where
  pyFloat : String → Option ℚ
  toDatetime : String → Option ℚ
  year : ℚ → Int
  month : ℚ → Int
  monthName : ℚ → String

/-- A trivial instantiation of the external collaborators, used to
evaluate the embedding on concrete inputs. -/
def extTriv : Ext :=
  ⟨fun _ => Option.none, fun _ => Option.none, fun _ => 0, fun _ => 1, fun _ => ""⟩

/-- A raw cell of a numeric column: absent (`NaN`/`None`), a number, or a
string. -/
inductive NumVal where
  | absent
  | num (q : ℚ)
  | str (s : String)
deriving DecidableEq

/-- A raw cell of the `ReleaseDate` column: absent, an already-structured
datetime, a numeric Excel serial, or a string. -/
inductive DateInput where
  | absent
  | date (d : ℚ)
  | num (q : ℚ)
  | str (s : String)
deriving DecidableEq

/-- A raw cell of an identifier-like column: absent (`NaN`), a malformed
non-integer value (on which Python's `int` raises), or an integer. -/
inductive IdVal where
  | absent
  | mal (s : String)
  | val (n : Int)
deriving DecidableEq

/-- `int(value)` where the value is required to be present: raises (yields
`none`) on an absent or malformed cell. -/
def reqInt : IdVal → Option Int
  | .val n => some n
  | _ => Option.none

/-- `int(value) if pd.notna(value) else None`: an absent cell becomes a null
(`some none`), a malformed present cell raises (`none`). -/
def optInt : IdVal → Option (Option Int)
  | .absent => some Option.none
  | .mal _ => Option.none
  | .val n => some (some n)

/-- `int(value) if pd.notna(value) else 0`: an absent cell defaults to `0`,
a malformed present cell raises (`none`). -/
def intOrZero : IdVal → Option Int
  | .absent => some 0
  | .mal _ => Option.none
  | .val n => some n

/-- `clean_numeric` of the source: absent, the empty string, or the number
zero yield `None`; otherwise the value is converted with `float`, any
conversion failure yielding `None`. -/
def clean_numeric (ext : Ext) : NumVal → Option ℚ
  | .absent => Option.none
  | .num q => if q = 0 then Option.none else some q
  | .str s => if s = "" then Option.none else ext.pyFloat s

/-- Day number of the fixed epoch `pd.Timestamp('1899-12-30')` used for
Excel serial dates (day numbers are counted from that very date). -/
def excelEpoch : ℚ := 0

/-- `parse_excel_date` of the source: absent input yields `None`; an
already-structured datetime is returned unchanged; a number is an Excel
serial counted from 1899-12-30; a string goes through the generic parser
`pd.to_datetime`, a parse failure yielding `None`. -/
def parse_excel_date (ext : Ext) : DateInput → Option ℚ
  | .absent => Option.none
  | .date d => some d
  | .num q => some (excelEpoch + q)
  | .str s => ext.toDatetime s

/-- `extract_time_components` of the source: `None` quadruple for an absent
date, otherwise year, quarter `(month - 1) // 3 + 1` (Python floor
division), month, and month name. -/
def extract_time_components (ext : Ext) :
    Option ℚ → Option Int × Option Int × Option Int × Option String
  | Option.none => (Option.none, Option.none, Option.none, Option.none)
  | some d =>
      (some (ext.year d), some (Int.fdiv (ext.month d - 1) 3 + 1),
        some (ext.month d), some (ext.monthName d))

/-- One raw source row (one film) with exactly the columns the script
reads. -/
structure RawRow where
  FilmID : IdVal
  Title : Option String
  ReleaseDate : DateInput
  BudgetDollars : NumVal
  BoxOfficeDollars : NumVal
  RunTimeMinutes : IdVal
  OscarNominations : IdVal
  OscarWins : IdVal
  DirectorID : IdVal
  StudioID : IdVal
  GenreID : IdVal
  CountryID : IdVal
  LanguageID : IdVal
  CertificateID : IdVal
  Certificate : IdVal
  Review : Option String
deriving DecidableEq

/-- A transformed row: the raw row plus the derived columns added by
`transform_data`. -/
structure CleanRow extends RawRow where
  ReleaseDate_Parsed : Option ℚ
  BudgetDollars_Clean : Option ℚ
  BoxOfficeDollars_Clean : Option ℚ
  ProfitDollars : Option ℚ
  ROI : Option ℚ
  Year : Option Int
  Quarter : Option Int
  Month : Option Int
  MonthName : Option String
deriving DecidableEq

/-- NaN-propagating subtraction of two float columns, as performed by the
pandas expression `box_clean - budget_clean`. -/
def osub : Option ℚ → Option ℚ → Option ℚ
  | some x, some y => some (x - y)
  | _, _ => Option.none

/-- NaN-propagating division of two float columns. -/
def odiv : Option ℚ → Option ℚ → Option ℚ
  | some x, some y => some (x / y)
  | _, _ => Option.none

/-- The per-row body of `transform_data`: parse the date, clean the two
financial columns, derive `ProfitDollars` and (via
`np.where(budget > 0, (box - budget) / budget, None)`) `ROI`, and extract
the calendar components. -/
def transform_row (ext : Ext) (r : RawRow) : CleanRow :=
  let parsed := parse_excel_date ext r.ReleaseDate
  let budget := clean_numeric ext r.BudgetDollars
  let box := clean_numeric ext r.BoxOfficeDollars
  let profit := osub box budget
  let roi : Option ℚ :=
    match budget with
    | some b => if 0 < b then odiv (osub box budget) budget else Option.none
    | Option.none => Option.none
  let tc := extract_time_components ext parsed
  { r with
    ReleaseDate_Parsed := parsed
    BudgetDollars_Clean := budget
    BoxOfficeDollars_Clean := box
    ProfitDollars := profit
    ROI := roi
    Year := tc.1
    Quarter := tc.2.1
    Month := tc.2.2.1
    MonthName := tc.2.2.2 }

/-- `transform_data` of the source, applied row by row. -/
def transform_data (ext : Ext) (df : List RawRow) : List CleanRow :=
  df.map (transform_row ext)

/-- A warehouse table: rows in insertion order, each a primary-key value
paired with the remaining columns. -/
abbrev Table (V : Type) : Type := List (Int × V)

/-- Whether the table already holds a row with the given primary key. -/
def hasKey {V : Type} (t : Table V) (k : Int) : Bool :=
  t.any fun e => e.1 == k

/-- `INSERT ... ON CONFLICT (pk) DO NOTHING`: append the row unless a row
with the same key exists, in which case the table is left untouched. -/
def insertOrSkip {V : Type} (t : Table V) (k : Int) (v : V) : Table V :=
  if hasKey t k then t else t ++ [(k, v)]

/-- What one loader reports: the resulting table together with the
accumulated `inserted` (sum of statement rowcounts) and `errors` tallies. -/
structure LoadResult (V : Type) where
  table : Table V
  inserted : Nat
  errors : Nat
deriving DecidableEq

/-- The per-row loop shared by the dimension loaders: every iteration ends
with a `commit` (after a successful insert) or a `rollback` (after a failed
one), so the table state simply advances by `insertOrSkip` on success and
is untouched on a per-row failure, with `none` attempts (a raised Python
exception while building or running the statement) counted as errors. -/
def dimLoop {V : Type} :
    List (Option (Int × V)) → Table V → Nat → Nat → LoadResult V
  | [], t, ins, err => ⟨t, ins, err⟩
  | Option.none :: rest, t, ins, err => dimLoop rest t ins (err + 1)
  | some (k, v) :: rest, t, ins, err =>
      dimLoop rest (insertOrSkip t k v)
        (ins + (if hasKey t k then 0 else 1)) err

/-- Run a dimension loader's loop from a fresh tally. -/
def dimLoad {V : Type} (items : List (Option (Int × V))) (t : Table V) :
    LoadResult V :=
  dimLoop items t 0 0

/-- The table part of `dimLoop`, convenient for proofs. -/
def dimTab {V : Type} : List (Option (Int × V)) → Table V → Table V
  | [], t => t
  | Option.none :: rest, t => dimTab rest t
  | some (k, v) :: rest, t => dimTab rest (insertOrSkip t k v)

/-- Number of failing attempts in an item list. -/
def countFails {α : Type} : List (Option α) → Nat
  | [] => 0
  | Option.none :: rest => countFails rest + 1
  | some _ :: rest => countFails rest

/-- Keep, for each key, only the first element carrying it (pandas
`drop_duplicates(subset=[key], keep='first')`), given the keys already
seen. -/
def dedupByKey {α κ : Type} [DecidableEq κ] (key : α → κ) :
    List α → List κ → List α
  | [], _ => []
  | x :: xs, seen =>
      if key x ∈ seen then dedupByKey key xs seen
      else x :: dedupByKey key xs (key x :: seen)

/-- Columns of a `DimTime` row beyond the key. -/
structure TimeVals where
  fullDate : Option ℚ
  year : Option Int
  quarter : Option Int
  month : Option Int
  monthName : Option String
deriving DecidableEq

/-- `pd.notna(r['ReleaseDate_Parsed'])` as a Boolean row predicate. -/
def hasDate (r : CleanRow) : Bool :=
  r.ReleaseDate_Parsed.isSome

/-- The projection step of `load_dimension_time`: keep the rows whose
parsed date is present, then drop duplicate `RunTimeMinutes` keys keeping
the first remaining row per key. -/
def time_data (df : List CleanRow) : List CleanRow :=
  dedupByKey (fun r => r.RunTimeMinutes) (df.filter hasDate) []

/-- Build one `DimTime` insert: the key is `int(row['RunTimeMinutes'])`
(raising on an absent or malformed runtime), the payload the date and its
calendar components. -/
def timeAttempt (r : CleanRow) : Option (Int × TimeVals) :=
  (reqInt r.RunTimeMinutes).map fun k =>
    (k, ⟨r.ReleaseDate_Parsed, r.Year, r.Quarter, r.Month, r.MonthName⟩)

/-- `load_dimension_time` of the source. -/
def load_dimension_time (df : List CleanRow) (t : Table TimeVals) :
    LoadResult TimeVals :=
  dimLoad ((time_data df).map timeAttempt) t

/-- Columns of a `DimFilm` row beyond the key. -/
structure FilmVals where
  title : String
  certificate : Option String
  review : Option String
deriving DecidableEq

/-- Python's `str` applied to a possibly-NaN cell. -/
def pyStr : Option String → String
  | some s => s
  | Option.none => "nan"

/-- Certificate resolution of `load_dimension_film`: prefer a present
`CertificateID`, fall back to a present `Certificate`, else null; a
present but malformed value makes `int` raise (outer `none`). -/
def certResolve (r : CleanRow) : Option (Option String) :=
  if r.CertificateID ≠ IdVal.absent then
    (reqInt r.CertificateID).map fun n => some (toString n)
  else if r.Certificate ≠ IdVal.absent then
    (reqInt r.Certificate).map fun n => some (toString n)
  else some Option.none

/-- Build one `DimFilm` insert from a full row: resolve the certificate,
truncate `Title` to 200 and `Review` to 500 characters, and key by
`int(row['FilmID'])` (raising on an absent or malformed film id). -/
def filmAttempt (r : CleanRow) : Option (Int × FilmVals) :=
  match certResolve r, reqInt r.FilmID with
  | some cert, some k =>
      some (k, ⟨(pyStr r.Title).take 200, cert,
        r.Review.map fun s => s.take 500⟩)
  | _, _ => Option.none

/-- `load_dimension_film` of the source: every row is attempted, keyed by
`FilmID`. -/
def load_dimension_film (df : List CleanRow) (t : Table FilmVals) :
    LoadResult FilmVals :=
  dimLoad (df.map filmAttempt) t

/-- A present (non-NaN) identifier cell, as kept by `dropna`. -/
def nonAbsent : IdVal → Bool
  | .absent => false
  | _ => true

/-- The projection step of `load_dimension_generic`:
`df[[id_col]].dropna().drop_duplicates()` — the distinct non-absent values
of the id column, first occurrences first. -/
def genericIds (proj : CleanRow → IdVal) (df : List CleanRow) : List IdVal :=
  dedupByKey (fun v => v) ((df.map proj).filter nonAbsent) []

/-- Build one generic-dimension insert from a projected id value: the key
is `int(value)` (raising on a malformed value) and the name is synthesized
as `display_name + "_" + str(int(value))`. -/
def genericAttempt (display_name : String) (v : IdVal) :
    Option (Int × String) :=
  (reqInt v).map fun n => (n, display_name ++ "_" ++ toString n)

/-- `load_dimension_generic` of the source, for the dimension whose id is
read off by `proj` and whose placeholder names carry `display_name`. -/
def load_dimension_generic (display_name : String)
    (proj : CleanRow → IdVal) (df : List CleanRow) (t : Table String) :
    LoadResult String :=
  dimLoad ((genericIds proj df).map (genericAttempt display_name)) t

/-- Columns of a `FactFilmPerformance` row beyond the key, in statement
order. -/
structure FactVals where
  directorId : Option Int
  studioId : Option Int
  genreId : Option Int
  countryId : Option Int
  languageId : Option Int
  timeId : Option Int
  budget : Option ℚ
  boxOffice : Option ℚ
  oscarNominations : Int
  oscarWins : Int
  runTime : Option Int
  profit : Option ℚ
  roi : Option ℚ
deriving DecidableEq

/-- Build one fact insert from a row, mirroring the parameter tuple of
`load_fact_table`: `FilmID` is required, the dimension ids null out when
absent, Oscar counts default to zero, and both `TimeID` and the
`RunTimeMinutes` measure come from `int(row['RunTimeMinutes'])`; any
malformed cell makes `int` raise, failing the whole row. -/
def factAttempt (r : CleanRow) : Option (Int × FactVals) :=
  match reqInt r.FilmID, optInt r.DirectorID, optInt r.StudioID,
    optInt r.GenreID, optInt r.CountryID, optInt r.LanguageID,
    optInt r.RunTimeMinutes, intOrZero r.OscarNominations,
    intOrZero r.OscarWins, optInt r.RunTimeMinutes with
  | some k, some dir, some stu, some gen, some cou, some lan, some tid,
      some nom, some win, some rtm =>
      some (k, ⟨dir, stu, gen, cou, lan, tid, r.BudgetDollars_Clean,
        r.BoxOfficeDollars_Clean, nom, win, rtm, r.ProfitDollars, r.ROI⟩)
  | _, _, _, _, _, _, _, _, _, _ => Option.none

/-- The loop of `load_fact_table`: unlike the dimension loops there is no
per-row commit, so `cm` (the committed table, untouched during the loop)
and `cur` (the table as the open transaction sees it) are tracked
separately; a row failure runs `conn.rollback()`, which resets `cur` to
`cm`, and the loop then continues with the next row. -/
def factLoop {V : Type} (cm : Table V) :
    List (Option (Int × V)) → Table V → Nat → Nat → LoadResult V
  | [], cur, ins, err => ⟨cur, ins, err⟩
  | Option.none :: rest, _, ins, err => factLoop cm rest cm ins (err + 1)
  | some (k, v) :: rest, cur, ins, err =>
      factLoop cm rest (insertOrSkip cur k v)
        (ins + (if hasKey cur k then 0 else 1)) err

/-- The table part of `factLoop`, convenient for proofs. -/
def factTab {V : Type} (cm : Table V) :
    List (Option (Int × V)) → Table V → Table V
  | [], cur => cur
  | Option.none :: rest, _ => factTab cm rest cm
  | some (k, v) :: rest, cur => factTab cm rest (insertOrSkip cur k v)

/-- `load_fact_table` of the source: one cumulative transaction over the
whole batch, rollback-on-error per row, and a single `conn.commit()` after
the iteration, which publishes the transaction's final table state. -/
def load_fact_table (df : List CleanRow) (t : Table FactVals) :
    LoadResult FactVals :=
  factLoop t (df.map factAttempt) t 0 0

/-- The warehouse: the seven dimension tables plus the fact table. -/
structure DW where
  dimTime : Table TimeVals
  dimFilm : Table FilmVals
  dimDirector : Table String
  dimStudio : Table String
  dimGenre : Table String
  dimCountry : Table String
  dimLanguage : Table String
  fact : Table FactVals
deriving DecidableEq

/-- The load phase of `run_etl`: the seven dimension loaders (in source
order: time, film, director, studio, genre, country, language) followed by
the fact loader; each loader writes its own table only. -/
def run_etl_load (df : List CleanRow) (w : DW) : DW :=
  { dimTime := (load_dimension_time df w.dimTime).table
    dimFilm := (load_dimension_film df w.dimFilm).table
    dimDirector :=
      (load_dimension_generic "Director" (fun r => r.DirectorID) df
        w.dimDirector).table
    dimStudio :=
      (load_dimension_generic "Studio" (fun r => r.StudioID) df
        w.dimStudio).table
    dimGenre :=
      (load_dimension_generic "Genre" (fun r => r.GenreID) df
        w.dimGenre).table
    dimCountry :=
      (load_dimension_generic "Country" (fun r => r.CountryID) df
        w.dimCountry).table
    dimLanguage :=
      (load_dimension_generic "Language" (fun r => r.LanguageID) df
        w.dimLanguage).table
    fact := (load_fact_table df w.fact).table }

/-- A raw row with every cell absent. -/
def rawBlank : RawRow :=
  ⟨.absent, Option.none, .absent, .absent, .absent, .absent, .absent,
    .absent, .absent, .absent, .absent, .absent, .absent, .absent, .absent,
    Option.none⟩

/-- A cleaned row with every cell absent. -/
def rowBlank : CleanRow :=
  { rawBlank with
    ReleaseDate_Parsed := Option.none
    BudgetDollars_Clean := Option.none
    BoxOfficeDollars_Clean := Option.none
    ProfitDollars := Option.none
    ROI := Option.none
    Year := Option.none
    Quarter := Option.none
    Month := Option.none
    MonthName := Option.none }

/-- A row whose only present cell is `FilmID = 1`. -/
def rowFilm1 : CleanRow := { rowBlank with FilmID := .val 1 }

/-- A row whose only present cell is `FilmID = 2`. -/
def rowFilm2 : CleanRow := { rowBlank with FilmID := .val 2 }

/-- The fact columns produced for a row whose every non-key cell is
absent. -/
def factBlank : FactVals :=
  ⟨Option.none, Option.none, Option.none, Option.none, Option.none,
    Option.none, Option.none, Option.none, 0, 0, Option.none, Option.none,
    Option.none⟩

/-- A row with runtime 120 and an absent parsed date. -/
def rowTime120NoDate : CleanRow :=
  { rowBlank with RunTimeMinutes := .val 120 }

/-- A row with runtime 120 and parsed date day 10. -/
def rowTime120Dated : CleanRow :=
  { rowBlank with
    RunTimeMinutes := .val 120
    ReleaseDate_Parsed := some 10 }

/-- A row with `FilmID = 3` directed by director 7. -/
def rowDir7a : CleanRow :=
  { rowBlank with
    FilmID := .val 3
    DirectorID := .val 7 }

/-- A row with `FilmID = 4`, also directed by director 7. -/
def rowDir7b : CleanRow :=
  { rowBlank with
    FilmID := .val 4
    DirectorID := .val 7 }

/-- A row with `FilmID = 5` and runtime 99. -/
def rowFact5 : CleanRow :=
  { rowBlank with
    FilmID := .val 5
    RunTimeMinutes := .val 99 }

/-- The fact columns produced for `rowFact5`. -/
def factRT99 : FactVals :=
  ⟨Option.none, Option.none, Option.none, Option.none, Option.none,
    some 99, Option.none, Option.none, 0, 0, some 99, Option.none,
    Option.none⟩

/-- The raw row of the specification's worked example:
budget 1000000, box office 3000000. -/
def rawExample : RawRow :=
  { rawBlank with
    BudgetDollars := NumVal.num 1000000
    BoxOfficeDollars := NumVal.num 3000000 }

/-- Content of the row a table holds under the given primary key (the
first one, in insertion order). -/
def lookupKey {V : Type} (t : Table V) (k : Int) : Option V :=
  (t.find? fun e => e.1 == k).map fun e => e.2

/-- Modelled from the claim's words, for comparison with `time_data`: a
projection that deduplicates the batch by `RunTimeMinutes` FIRST, keeping
the first row per key, and only then excludes the rows whose parsed date
is absent. -/
def time_data_claimOrder (df : List CleanRow) : List CleanRow :=
  (dedupByKey (fun r => r.RunTimeMinutes) df []).filter hasDate

/-! ## Generic lemmas about tables, the loader loops, and deduplication -/

theorem hasKey_iff {V : Type} {t : Table V} {k : Int} :
    hasKey t k = true ↔ ∃ v, (k, v) ∈ t := by
  unfold hasKey
  rw [List.any_eq_true]
  constructor
  · rintro ⟨⟨a, b⟩, hm, he⟩
    rw [beq_iff_eq] at he
    subst he
    exact ⟨b, hm⟩
  · rintro ⟨v, hv⟩
    exact ⟨(k, v), hv, by simp⟩

theorem hasKey_of_mem {V : Type} {t : Table V} {k : Int} {v : V}
    (h : (k, v) ∈ t) : hasKey t k = true :=
  hasKey_iff.2 ⟨v, h⟩

theorem hasKey_of_mem_pair {V : Type} {t : Table V} {e : Int × V}
    (h : e ∈ t) : hasKey t e.1 = true :=
  hasKey_iff.2 ⟨e.2, by simpa using h⟩

theorem hasKey_append {V : Type} {t a : Table V} {k : Int} :
    hasKey (t ++ a) k = (hasKey t k || hasKey a k) := by
  simp [hasKey, List.any_append]

theorem hasKey_append_left {V : Type} {t a : Table V} {k : Int}
    (h : hasKey t k = true) : hasKey (t ++ a) k = true := by
  simp [hasKey_append, h]

theorem hasKey_append_none {V : Type} {t a : Table V} {k : Int}
    (h : hasKey (t ++ a) k = false) : hasKey t k = false := by
  rw [hasKey_append] at h
  exact (Bool.or_eq_false_iff.1 h).1

theorem insertOrSkip_hasKey_self {V : Type} {t : Table V} {k : Int}
    {v : V} : hasKey (insertOrSkip t k v) k = true := by
  unfold insertOrSkip
  split
  · assumption
  · exact hasKey_iff.2 ⟨v, by simp⟩

theorem insertOrSkip_hasKey_mono {V : Type} {t : Table V} {k c : Int}
    {v : V} (h : hasKey t c = true) :
    hasKey (insertOrSkip t k v) c = true := by
  unfold insertOrSkip
  split
  · exact h
  · exact hasKey_append_left h

theorem insertOrSkip_exists_append {V : Type} (t : Table V) (k : Int)
    (v : V) : ∃ a, insertOrSkip t k v = t ++ a := by
  unfold insertOrSkip
  split
  · exact ⟨[], by simp⟩
  · exact ⟨[(k, v)], rfl⟩

theorem dimTab_exists_append {V : Type} (items : List (Option (Int × V))) :
    ∀ t, ∃ a, dimTab items t = t ++ a := by
  induction items with
  | nil => exact fun t => ⟨[], by simp [dimTab]⟩
  | cons hd rest ih =>
    intro t
    cases hd with
    | none => exact ih t
    | some kv =>
      obtain ⟨k, v⟩ := kv
      obtain ⟨b, hb⟩ := insertOrSkip_exists_append t k v
      obtain ⟨a, ha⟩ := ih (insertOrSkip t k v)
      refine ⟨b ++ a, ?_⟩
      rw [show dimTab (some (k, v) :: rest) t
            = dimTab rest (insertOrSkip t k v) from rfl, ha, hb,
        List.append_assoc]

theorem dimTab_hasKey_mono {V : Type} {items : List (Option (Int × V))}
    {t : Table V} {c : Int} (h : hasKey t c = true) :
    hasKey (dimTab items t) c = true := by
  obtain ⟨a, ha⟩ := dimTab_exists_append items t
  rw [ha]
  exact hasKey_append_left h

theorem dimTab_hasKey_of_item {V : Type}
    {items : List (Option (Int × V))} {k : Int} {v : V}
    (h : some (k, v) ∈ items) :
    ∀ t, hasKey (dimTab items t) k = true := by
  induction items with
  | nil => cases h
  | cons hd rest ih =>
    intro t
    rcases List.mem_cons.1 h with heq | hmem
    · subst heq
      rw [show dimTab (some (k, v) :: rest) t
            = dimTab rest (insertOrSkip t k v) from rfl]
      exact dimTab_hasKey_mono insertOrSkip_hasKey_self
    · cases hd with
      | none => exact ih hmem t
      | some kv =>
        obtain ⟨k2, v2⟩ := kv
        exact ih hmem (insertOrSkip t k2 v2)

theorem dimTab_noop {V : Type} {items : List (Option (Int × V))} :
    ∀ {t : Table V}, (∀ k v, some (k, v) ∈ items → hasKey t k = true) →
      dimTab items t = t := by
  induction items with
  | nil => exact fun _ => rfl
  | cons hd rest ih =>
    intro t h
    cases hd with
    | none =>
      exact ih fun k v hm => h k v (List.mem_cons_of_mem _ hm)
    | some kv =>
      obtain ⟨k, v⟩ := kv
      have hk : hasKey t k = true := h k v (List.mem_cons_self _ _)
      have : insertOrSkip t k v = t := by simp [insertOrSkip, hk]
      rw [show dimTab (some (k, v) :: rest) t
            = dimTab rest (insertOrSkip t k v) from rfl, this]
      exact ih fun k2 v2 hm => h k2 v2 (List.mem_cons_of_mem _ hm)

theorem dimTab_idem {V : Type} (items : List (Option (Int × V)))
    (t : Table V) : dimTab items (dimTab items t) = dimTab items t :=
  dimTab_noop fun _ _ h => dimTab_hasKey_of_item h t

theorem dimTab_append {V : Type} (i1 i2 : List (Option (Int × V))) :
    ∀ t, dimTab (i1 ++ i2) t = dimTab i2 (dimTab i1 t) := by
  induction i1 with
  | nil => intro t; rfl
  | cons hd rest ih =>
    intro t
    cases hd with
    | none => exact ih t
    | some kv =>
      obtain ⟨k, v⟩ := kv
      exact ih (insertOrSkip t k v)

theorem dimLoop_table {V : Type} (items : List (Option (Int × V))) :
    ∀ t i e, (dimLoop items t i e).table = dimTab items t := by
  induction items with
  | nil => intro t i e; rfl
  | cons hd rest ih =>
    intro t i e
    cases hd with
    | none => exact ih t i (e + 1)
    | some kv =>
      obtain ⟨k, v⟩ := kv
      exact ih (insertOrSkip t k v) (i + (if hasKey t k then 0 else 1)) e

theorem dimLoop_errors {V : Type} (items : List (Option (Int × V))) :
    ∀ t i e, (dimLoop items t i e).errors = e + countFails items := by
  induction items with
  | nil => intro t i e; simp [dimLoop, countFails]
  | cons hd rest ih =>
    intro t i e
    cases hd with
    | none =>
      rw [show dimLoop (Option.none :: rest) t i e
            = dimLoop rest t i (e + 1) from rfl, ih]
      simp [countFails]
      omega
    | some kv =>
      obtain ⟨k, v⟩ := kv
      exact ih (insertOrSkip t k v) (i + (if hasKey t k then 0 else 1)) e

theorem factLoop_table {V : Type} (cm : Table V)
    (items : List (Option (Int × V))) :
    ∀ cur i e, (factLoop cm items cur i e).table = factTab cm items cur := by
  induction items with
  | nil => intro cur i e; rfl
  | cons hd rest ih =>
    intro cur i e
    cases hd with
    | none => exact ih cm i (e + 1)
    | some kv =>
      obtain ⟨k, v⟩ := kv
      exact ih (insertOrSkip cur k v) (i + (if hasKey cur k then 0 else 1)) e

theorem factLoop_errors {V : Type} (cm : Table V)
    (items : List (Option (Int × V))) :
    ∀ cur i e, (factLoop cm items cur i e).errors = e + countFails items := by
  induction items with
  | nil => intro cur i e; simp [factLoop, countFails]
  | cons hd rest ih =>
    intro cur i e
    cases hd with
    | none =>
      rw [show factLoop cm (Option.none :: rest) cur i e
            = factLoop cm rest cm i (e + 1) from rfl, ih]
      simp [countFails]
      omega
    | some kv =>
      obtain ⟨k, v⟩ := kv
      exact ih (insertOrSkip cur k v) (i + (if hasKey cur k then 0 else 1)) e

theorem countFails_append {α : Type} (i1 i2 : List (Option α)) :
    countFails (i1 ++ i2) = countFails i1 + countFails i2 := by
  induction i1 with
  | nil => simp [countFails]
  | cons hd rest ih =>
    cases hd with
    | none => simp [countFails, ih]; omega
    | some a => simpa [countFails] using ih

theorem factTab_append {V : Type} (cm : Table V)
    (i1 i2 : List (Option (Int × V))) :
    ∀ cur, factTab cm (i1 ++ i2) cur = factTab cm i2 (factTab cm i1 cur) := by
  induction i1 with
  | nil => intro cur; rfl
  | cons hd rest ih =>
    intro cur
    cases hd with
    | none => exact ih cm
    | some kv =>
      obtain ⟨k, v⟩ := kv
      exact ih (insertOrSkip cur k v)

/-- Relate two runs of the fact transaction loop over the same item list:
when the second run starts from a committed/current state whose keys
dominate the first run's and whose extra rows are all key-covered by its
committed table, then every row the second run ends with is either a row
the first run ends with or one whose key the second committed table
already had. -/
theorem factTab_rel {V : Type} (items : List (Option (Int × V))) :
    ∀ (cm cm2 cur cur2 : Table V),
      (∀ c, hasKey cm c = true → hasKey cm2 c = true) →
      (∀ c, hasKey cur c = true → hasKey cur2 c = true) →
      (∀ e, e ∈ cur2 → e ∈ cur ∨ hasKey cm2 e.1 = true) →
      ∀ e, e ∈ factTab cm2 items cur2 →
        e ∈ factTab cm items cur ∨ hasKey cm2 e.1 = true := by
  induction items with
  | nil => exact fun cm cm2 cur cur2 _ _ hm => hm
  | cons hd rest ih =>
    intro cm cm2 cur cur2 hk hc hm
    cases hd with
    | none =>
      exact ih cm cm2 cm cm2 hk hk fun e he => Or.inr (hasKey_of_mem_pair he)
    | some kv =>
      obtain ⟨k, v⟩ := kv
      rw [show factTab cm (some (k, v) :: rest) cur
            = factTab cm rest (insertOrSkip cur k v) from rfl]
      rw [show factTab cm2 (some (k, v) :: rest) cur2
            = factTab cm2 rest (insertOrSkip cur2 k v) from rfl]
      by_cases h1 : hasKey cur k = true
      · have h2 : hasKey cur2 k = true := hc k h1
        rw [show insertOrSkip cur k v = cur by simp [insertOrSkip, h1]]
        rw [show insertOrSkip cur2 k v = cur2 by simp [insertOrSkip, h2]]
        exact ih cm cm2 cur cur2 hk hc hm
      · rw [show insertOrSkip cur k v = cur ++ [(k, v)] by
          simp [insertOrSkip, h1]]
        by_cases h2 : hasKey cur2 k = true
        · rw [show insertOrSkip cur2 k v = cur2 by simp [insertOrSkip, h2]]
          refine ih cm cm2 (cur ++ [(k, v)]) cur2 hk ?_ ?_
          · intro c hcc
            rw [hasKey_append] at hcc
            rcases Bool.or_eq_true_iff.1 hcc with hl | hr
            · exact hc c hl
            · have : c = k := by
                simp [hasKey] at hr
                omega
              exact this ▸ h2
          · intro e he
            rcases hm e he with hl | hr
            · exact Or.inl (List.mem_append_left _ hl)
            · exact Or.inr hr
        · rw [show insertOrSkip cur2 k v = cur2 ++ [(k, v)] by
            simp [insertOrSkip, h2]]
          refine ih cm cm2 (cur ++ [(k, v)]) (cur2 ++ [(k, v)]) hk ?_ ?_
          · intro c hcc
            rw [hasKey_append] at hcc ⊢
            rcases Bool.or_eq_true_iff.1 hcc with hl | hr
            · exact Bool.or_eq_true_iff.2 (Or.inl (hc c hl))
            · exact Bool.or_eq_true_iff.2 (Or.inr hr)
          · intro e he
            rcases List.mem_append.1 he with hl | hr
            · rcases hm e hl with hml | hmr
              · exact Or.inl (List.mem_append_left _ hml)
              · exact Or.inr hmr
            · exact Or.inl (List.mem_append_right _ hr)

/-- A run of the fact transaction loop starting from the committed table
plus fresh-keyed extra rows ends in the committed table plus fresh-keyed
extra rows (the rollback resets to exactly the committed table, and every
append is conflict-checked). -/
theorem factTab_fresh {V : Type} (items : List (Option (Int × V))) :
    ∀ (cm a : Table V),
      (∀ e, e ∈ a → hasKey cm e.1 = false) →
      ∃ b, factTab cm items (cm ++ a) = cm ++ b ∧
        ∀ e, e ∈ b → hasKey cm e.1 = false := by
  induction items with
  | nil => exact fun cm a h => ⟨a, rfl, h⟩
  | cons hd rest ih =>
    intro cm a h
    cases hd with
    | none =>
      obtain ⟨b, hb, hfresh⟩ := ih cm [] (by intro e he; cases he)
      rw [List.append_nil] at hb
      exact ⟨b, hb, hfresh⟩
    | some kv =>
      obtain ⟨k, v⟩ := kv
      rw [show factTab cm (some (k, v) :: rest) (cm ++ a)
            = factTab cm rest (insertOrSkip (cm ++ a) k v) from rfl]
      by_cases h1 : hasKey (cm ++ a) k = true
      · rw [show insertOrSkip (cm ++ a) k v = cm ++ a by
          simp [insertOrSkip, h1]]
        exact ih cm a h
      · rw [show insertOrSkip (cm ++ a) k v = (cm ++ a) ++ [(k, v)] by
          simp [insertOrSkip, h1],
          List.append_assoc]
        refine ih cm (a ++ [(k, v)]) ?_
        intro e he
        rcases List.mem_append.1 he with hl | hr
        · exact h e hl
        · have : e = (k, v) := by simpa using hr
          subst this
          exact hasKey_append_none (Bool.not_eq_true _ ▸ h1)

/-- Replaying the whole fact-table transaction against its own result is a
no-op: the second run's appends mirror first-run appends whose keys the
result already holds, so every one of them conflicts or is rolled back. -/
theorem factTab_idem {V : Type} (items : List (Option (Int × V)))
    (t : Table V) :
    factTab (factTab t items t) items (factTab t items t)
      = factTab t items t := by
  obtain ⟨a0, ha0, _⟩ := factTab_fresh items t [] (by intro e he; cases he)
  rw [List.append_nil] at ha0
  have hsub : ∀ c, hasKey t c = true → hasKey (factTab t items t) c = true := by
    intro c hcc
    rw [ha0]
    exact hasKey_append_left hcc
  have hrel := factTab_rel items t (factTab t items t) t (factTab t items t)
    hsub hsub (fun e he => Or.inr (hasKey_of_mem_pair he))
  obtain ⟨b, hb, hfresh⟩ :=
    factTab_fresh items (factTab t items t) [] (by intro e he; cases he)
  rw [List.append_nil] at hb
  have hbnil : b = [] := by
    rw [List.eq_nil_iff_forall_not_mem]
    intro e he
    have hmem : e ∈ factTab (factTab t items t) items (factTab t items t) := by
      rw [hb]
      exact List.mem_append_right _ he
    have hkey : hasKey (factTab t items t) e.1 = true := by
      rcases hrel e hmem with hl | hr
      · exact hasKey_of_mem_pair hl
      · exact hr
    rw [hfresh e he] at hkey
    cases hkey
  rw [hb, hbnil, List.append_nil]

/-- Every element kept by `dedupByKey` carries a key not seen before. -/
theorem dedupByKey_unseen {α κ : Type} [DecidableEq κ] (key : α → κ) :
    ∀ (l : List α) (seen : List κ) (x : α),
      x ∈ dedupByKey key l seen → key x ∉ seen := by
  intro l
  induction l with
  | nil => intro seen x hx; cases hx
  | cons hd rest ih =>
    intro seen x hx
    rw [dedupByKey] at hx
    split at hx
    · exact ih seen x hx
    · rcases List.mem_cons.1 hx with heq | hmem
      · subst heq; assumption
      · intro hc
        exact ih _ x hmem (List.mem_cons_of_mem _ hc)

/-- `dedupByKey` only keeps elements of the input. -/
theorem dedupByKey_sub {α κ : Type} [DecidableEq κ] (key : α → κ) :
    ∀ (l : List α) (seen : List κ) (x : α),
      x ∈ dedupByKey key l seen → x ∈ l := by
  intro l
  induction l with
  | nil => intro seen x hx; cases hx
  | cons hd rest ih =>
    intro seen x hx
    rw [dedupByKey] at hx
    split at hx
    · exact List.mem_cons_of_mem _ (ih seen x hx)
    · rcases List.mem_cons.1 hx with heq | hmem
      · exact heq ▸ List.mem_cons_self _ _
      · exact List.mem_cons_of_mem _ (ih _ x hmem)

/-- For an unseen key `c`, the element of `dedupByKey` carrying `c` is
exactly the first element of the input carrying `c`. -/
theorem dedupByKey_first {α κ : Type} [DecidableEq κ] (key : α → κ) :
    ∀ (l : List α) (seen : List κ) (c : κ), c ∉ seen →
      ∀ r, (r ∈ dedupByKey key l seen ∧ key r = c) ↔
        l.find? (fun x => key x == c) = some r := by
  intro l
  induction l with
  | nil =>
    intro seen c _ r
    constructor
    · rintro ⟨hx, _⟩; cases hx
    · intro h; cases h
  | cons hd rest ih =>
    intro seen c hc r
    by_cases hkey : key hd = c
    · have hseen : key hd ∉ seen := hkey ▸ hc
      rw [dedupByKey, if_neg hseen]
      rw [List.find?_cons_of_pos _ (by simp [hkey])]
      constructor
      · rintro ⟨hmem, hkr⟩
        rcases List.mem_cons.1 hmem with heq | hmem2
        · rw [heq]
        · exfalso
          have := dedupByKey_unseen key rest (key hd :: seen) r hmem2
          exact this (by rw [hkr, ← hkey]; exact List.mem_cons_self _ _)
      · intro h
        have : hd = r := by injection h
        subst this
        exact ⟨List.mem_cons_self _ _, hkey⟩
    · rw [List.find?_cons_of_neg _ (by simp [hkey])]
      by_cases hseen : key hd ∈ seen
      · rw [dedupByKey, if_pos hseen]
        exact ih seen c hc r
      · rw [dedupByKey, if_neg hseen]
        have hc2 : c ∉ key hd :: seen := by
          intro h
          rcases List.mem_cons.1 h with heq | hmem
          · exact hkey heq.symm
          · exact hc hmem
        constructor
        · rintro ⟨hmem, hkr⟩
          rcases List.mem_cons.1 hmem with heq | hmem2
          · exact absurd (heq ▸ hkr) hkey
          · exact (ih (key hd :: seen) c hc2 r).1 ⟨hmem2, hkr⟩
        · intro h
          obtain ⟨hmem, hkr⟩ := (ih (key hd :: seen) c hc2 r).2 h
          exact ⟨List.mem_cons_of_mem _ hmem, hkr⟩

/-- Deduplicating by the identity key keeps every unseen element. -/
theorem dedupByKey_id_mem {α : Type} [DecidableEq α] :
    ∀ (l : List α) (seen : List α) (a : α), a ∉ seen → a ∈ l →
      a ∈ dedupByKey (fun v => v) l seen := by
  intro l
  induction l with
  | nil => intro seen a _ ha; cases ha
  | cons hd rest ih =>
    intro seen a hseen ha
    rw [dedupByKey]
    split
    · rcases List.mem_cons.1 ha with heq | hmem
      · exact absurd (heq ▸ (by assumption)) hseen
      · exact ih seen a hseen hmem
    · rcases List.mem_cons.1 ha with heq | hmem
      · exact heq ▸ List.mem_cons_self _ _
      · by_cases hah : a = hd
        · exact hah ▸ List.mem_cons_self _ _
        · refine List.mem_cons_of_mem _ (ih (hd :: seen) a ?_ hmem)
          intro hcon
          rcases List.mem_cons.1 hcon with h1 | h2
          · exact hah h1
          · exact hseen h2

/-- Deduplicating by the identity key yields a duplicate-free list. -/
theorem dedupByKey_id_nodup {α : Type} [DecidableEq α] :
    ∀ (l : List α) (seen : List α),
      (dedupByKey (fun v => v) l seen).Nodup := by
  intro l
  induction l with
  | nil => intro seen; simp [dedupByKey]
  | cons hd rest ih =>
    intro seen
    rw [dedupByKey]
    split
    · exact ih seen
    · refine List.nodup_cons.2 ⟨?_, ih (hd :: seen)⟩
      intro hmem
      exact dedupByKey_unseen (fun v => v) rest (hd :: seen) hd hmem
        (List.mem_cons_self _ _)

/-- Every row of a dimension-loop result is an original row or the payload
of one of the attempted inserts. -/
theorem dimTab_mem_src {V : Type} (items : List (Option (Int × V))) :
    ∀ (t : Table V) (e : Int × V), e ∈ dimTab items t →
      e ∈ t ∨ some e ∈ items := by
  induction items with
  | nil => exact fun t e he => Or.inl he
  | cons hd rest ih =>
    intro t e he
    cases hd with
    | none =>
      rcases ih t e he with hl | hr
      · exact Or.inl hl
      · exact Or.inr (List.mem_cons_of_mem _ hr)
    | some kv =>
      obtain ⟨k, v⟩ := kv
      rw [show dimTab (some (k, v) :: rest) t
            = dimTab rest (insertOrSkip t k v) from rfl] at he
      rcases ih (insertOrSkip t k v) e he with hl | hr
      · unfold insertOrSkip at hl
        split at hl
        · exact Or.inl hl
        · rcases List.mem_append.1 hl with h1 | h2
          · exact Or.inl h1
          · have : e = (k, v) := by simpa using h2
            exact Or.inr (this ▸ List.mem_cons_self _ _)
      · exact Or.inr (List.mem_cons_of_mem _ hr)

/-- A key already present keeps its first row across an append. -/
theorem find_append_of_hasKey {V : Type} {t : Table V} {k : Int}
    (a : Table V) (h : hasKey t k = true) :
    ((t ++ a).find? fun e => e.1 == k) = t.find? fun e => e.1 == k := by
  induction t with
  | nil => simp [hasKey] at h
  | cons hd rest ih =>
    by_cases hh : (hd.1 == k) = true
    · rw [List.cons_append]
      simp only [List.find?_cons, hh]
    · have hor : (hd.1 == k || hasKey rest k) = true := h
      have h2 : hasKey rest k = true := by
        rcases Bool.or_eq_true_iff.1 hor with h1 | h1
        · exact absurd h1 hh
        · exact h1
      have hf : (hd.1 == k) = false := by simpa using hh
      rw [List.cons_append]
      simp only [List.find?_cons, hf]
      exact ih h2

/-- A key absent from the first block is found, if at all, in the
second. -/
theorem find_append_of_noKey {V : Type} {t : Table V} {k : Int}
    (a : Table V) (h : hasKey t k = false) :
    ((t ++ a).find? fun e => e.1 == k) = a.find? fun e => e.1 == k := by
  induction t with
  | nil => rfl
  | cons hd rest ih =>
    have hor : (hd.1 == k || hasKey rest k) = false := h
    obtain ⟨hh, h2⟩ := Bool.or_eq_false_iff.1 hor
    rw [List.cons_append]
    simp only [List.find?_cons, hh]
    exact ih h2

theorem lookupKey_append_of_hasKey {V : Type} {t : Table V} {k : Int}
    (a : Table V) (h : hasKey t k = true) :
    lookupKey (t ++ a) k = lookupKey t k := by
  unfold lookupKey
  rw [find_append_of_hasKey a h]

theorem lookupKey_dimTab_of_hasKey {V : Type}
    (items : List (Option (Int × V))) {t : Table V} {k : Int}
    (h : hasKey t k = true) :
    lookupKey (dimTab items t) k = lookupKey t k := by
  obtain ⟨a, ha⟩ := dimTab_exists_append items t
  rw [ha, lookupKey_append_of_hasKey a h]

theorem insertOrSkip_keep_false {V : Type} {t : Table V} {k k2 : Int}
    {v2 : V} (h : hasKey t k = false) (hne : k2 ≠ k) :
    hasKey (insertOrSkip t k2 v2) k = false := by
  unfold insertOrSkip
  split
  · exact h
  · rw [hasKey_append]
    have h2 : hasKey [(k2, v2)] k = false := by
      simp [hasKey, hne]
    rw [h, h2]
    rfl

theorem reqInt_eq_some {v : IdVal} {n : Int} (h : reqInt v = some n) :
    v = IdVal.val n := by
  cases v with
  | absent => exact Option.noConfusion h
  | mal s => exact Option.noConfusion h
  | val m =>
    have : m = n := by
      have h2 : some m = some n := h
      exact Option.some.inj h2
    rw [this]

/-- Looking up a key that is fresh for the table, inserted exactly once by
the item list, returns the inserted payload. -/
theorem dimTab_lookup_fresh {V : Type} :
    ∀ (items : List (Option (Int × V))) (t : Table V) (k : Int) (v : V),
      hasKey t k = false → some (k, v) ∈ items →
      (∀ v2, some (k, v2) ∈ items → v2 = v) →
      lookupKey (dimTab items t) k = some v := by
  intro items
  induction items with
  | nil => intro t k v _ hm; cases hm
  | cons hd rest ih =>
    intro t k v hfresh hm huniq
    cases hd with
    | none =>
      have hm2 : some (k, v) ∈ rest := by
        rcases List.mem_cons.1 hm with heq | h2
        · exact Option.noConfusion heq
        · exact h2
      exact ih t k v hfresh hm2
        fun v2 h2 => huniq v2 (List.mem_cons_of_mem _ h2)
    | some kv =>
      obtain ⟨k2, v2⟩ := kv
      rw [show dimTab (some (k2, v2) :: rest) t
            = dimTab rest (insertOrSkip t k2 v2) from rfl]
      by_cases hk : k2 = k
      · subst hk
        have hv2 : v2 = v := huniq v2 (List.mem_cons_self _ _)
        subst hv2
        rw [show insertOrSkip t k2 v2 = t ++ [(k2, v2)] by
          simp [insertOrSkip, hfresh]]
        have hhk : hasKey (t ++ [(k2, v2)]) k2 = true := by
          rw [hasKey_append]
          simp [hasKey]
        rw [lookupKey_dimTab_of_hasKey rest hhk]
        unfold lookupKey
        rw [find_append_of_noKey _ hfresh]
        simp [List.find?]
      · have hfresh2 : hasKey (insertOrSkip t k2 v2) k = false :=
          insertOrSkip_keep_false hfresh hk
        have hm2 : some (k, v) ∈ rest := by
          rcases List.mem_cons.1 hm with heq | h2
          · exfalso
            have h3 : (k, v) = (k2, v2) := Option.some.inj heq
            exact hk (congrArg Prod.fst h3).symm
          · exact h2
        exact ih (insertOrSkip t k2 v2) k v hfresh2 hm2
          fun w hw => huniq w (List.mem_cons_of_mem _ hw)

/-! ## Projections of the individual loaders -/

theorem load_dimension_time_tab (df : List CleanRow) (t : Table TimeVals) :
    (load_dimension_time df t).table
      = dimTab ((time_data df).map timeAttempt) t :=
  dimLoop_table _ t 0 0

theorem load_dimension_film_tab (df : List CleanRow) (t : Table FilmVals) :
    (load_dimension_film df t).table = dimTab (df.map filmAttempt) t :=
  dimLoop_table _ t 0 0

theorem load_dimension_film_errs (df : List CleanRow) (t : Table FilmVals) :
    (load_dimension_film df t).errors = countFails (df.map filmAttempt) := by
  have h := dimLoop_errors (df.map filmAttempt) t 0 0
  simpa using h

theorem load_dimension_generic_tab (dn : String)
    (proj : CleanRow → IdVal) (df : List CleanRow) (t : Table String) :
    (load_dimension_generic dn proj df t).table
      = dimTab ((genericIds proj df).map (genericAttempt dn)) t :=
  dimLoop_table _ t 0 0

theorem load_fact_tab (df : List CleanRow) (t : Table FactVals) :
    (load_fact_table df t).table = factTab t (df.map factAttempt) t :=
  factLoop_table t _ t 0 0

theorem load_fact_errs (df : List CleanRow) (t : Table FactVals) :
    (load_fact_table df t).errors = countFails (df.map factAttempt) := by
  have h := factLoop_errors t (df.map factAttempt) t 0 0
  simpa using h

theorem osub_none_left (b : Option ℚ) : osub Option.none b = Option.none := by
  cases b <;> rfl

theorem osub_none_right (a : Option ℚ) : osub a Option.none = Option.none := by
  cases a <;> rfl

/-! ## Claim theorems -/

/-- C1: Running the load stage twice on an identical cleaned batch is
idempotent: every dimension and fact insert goes through
insert-or-skip-on-conflict keyed on the table's primary key, so for every
batch and every warehouse state the second run leaves the whole warehouse
(row counts and row contents of every table) exactly as the first run
left it. -/
theorem run_etl_load_idem (df : List CleanRow) (w : DW) :
    run_etl_load df (run_etl_load df w) = run_etl_load df w := by
  unfold run_etl_load
  rw [DW.mk.injEq]
  refine ⟨?_, ?_, ?_, ?_, ?_, ?_, ?_, ?_⟩ <;>
    simp only [load_dimension_time_tab, load_dimension_film_tab,
      load_dimension_generic_tab, load_fact_tab] <;>
    first
      | exact dimTab_idem _ _
      | exact factTab_idem _ _

/-- C2: In every transformed row, `ProfitDollars` is `CleanBoxOffice`
minus `CleanBudget` and is absent whenever either operand is absent, and
`ROI` equals `(CleanBoxOffice - CleanBudget) / CleanBudget` exactly when
`CleanBudget` is present and strictly positive, being absent when the
budget is absent, zero, or negative. -/
theorem transform_profit_roi (ext : Ext) (r : RawRow) :
    (transform_row ext r).ProfitDollars
        = osub (transform_row ext r).BoxOfficeDollars_Clean
            (transform_row ext r).BudgetDollars_Clean
    ∧ ((transform_row ext r).BoxOfficeDollars_Clean = Option.none
        ∨ (transform_row ext r).BudgetDollars_Clean = Option.none →
        (transform_row ext r).ProfitDollars = Option.none)
    ∧ (∀ b : ℚ, (transform_row ext r).BudgetDollars_Clean = some b →
        0 < b →
        (transform_row ext r).ROI
          = odiv (osub (transform_row ext r).BoxOfficeDollars_Clean
                (transform_row ext r).BudgetDollars_Clean)
              (transform_row ext r).BudgetDollars_Clean)
    ∧ (∀ b : ℚ, (transform_row ext r).BudgetDollars_Clean = some b →
        b ≤ 0 → (transform_row ext r).ROI = Option.none)
    ∧ ((transform_row ext r).BudgetDollars_Clean = Option.none →
        (transform_row ext r).ROI = Option.none) := by
  have hbud : (transform_row ext r).BudgetDollars_Clean
      = clean_numeric ext r.BudgetDollars := rfl
  have hbox : (transform_row ext r).BoxOfficeDollars_Clean
      = clean_numeric ext r.BoxOfficeDollars := rfl
  have hpro : (transform_row ext r).ProfitDollars
      = osub (clean_numeric ext r.BoxOfficeDollars)
          (clean_numeric ext r.BudgetDollars) := rfl
  have hroi : (transform_row ext r).ROI
      = (match clean_numeric ext r.BudgetDollars with
         | some b =>
             if 0 < b then
               odiv (osub (clean_numeric ext r.BoxOfficeDollars)
                   (clean_numeric ext r.BudgetDollars))
                 (clean_numeric ext r.BudgetDollars)
             else Option.none
         | Option.none => Option.none) := rfl
  refine ⟨by rw [hpro, hbox, hbud], ?_, ?_, ?_, ?_⟩
  · intro h
    rw [hpro]
    rcases h with h | h
    · rw [hbox] at h
      rw [h, osub_none_left]
    · rw [hbud] at h
      rw [h, osub_none_right]
  · intro b hb hpos
    rw [hbud] at hb
    rw [hroi, hbox, hbud, hb]
    simp [hpos]
  · intro b hb hneg
    rw [hbud] at hb
    rw [hroi, hb]
    simp [not_lt.2 hneg]
  · intro h
    rw [hbud] at h
    rw [hroi, h]

/-- C2 witness: on the specification's worked example (budget 1000000,
box office 3000000) the transformer yields profit 2000000 and ROI 2. -/
theorem transform_profit_roi_witness :
    (transform_row extTriv rawExample).ROI = some 2
    ∧ (transform_row extTriv rawExample).ProfitDollars = some 2000000 := by
  have hbox : (transform_row extTriv rawExample).BoxOfficeDollars_Clean
      = some 3000000 := by
    rw [show (transform_row extTriv rawExample).BoxOfficeDollars_Clean
          = clean_numeric extTriv (NumVal.num 3000000) from rfl,
      show clean_numeric extTriv (NumVal.num 3000000)
          = if (3000000 : ℚ) = 0 then Option.none else some 3000000
        from rfl, if_neg (by norm_num)]
  have hbud : (transform_row extTriv rawExample).BudgetDollars_Clean
      = some 1000000 := by
    rw [show (transform_row extTriv rawExample).BudgetDollars_Clean
          = clean_numeric extTriv (NumVal.num 1000000) from rfl,
      show clean_numeric extTriv (NumVal.num 1000000)
          = if (1000000 : ℚ) = 0 then Option.none else some 1000000
        from rfl, if_neg (by norm_num)]
  constructor
  · have h := (transform_profit_roi extTriv rawExample).2.2.1 1000000 hbud
      (by norm_num)
    rw [h, hbox, hbud]
    rw [show osub (some (3000000 : ℚ)) (some 1000000)
        = some (3000000 - 1000000) from rfl]
    rw [show odiv (some ((3000000 : ℚ) - 1000000)) (some 1000000)
        = some ((3000000 - 1000000) / 1000000) from rfl]
    simp only [Option.some.injEq]
    norm_num
  · have h := (transform_profit_roi extTriv rawExample).1
    rw [h, hbox, hbud]
    rw [show osub (some (3000000 : ℚ)) (some 1000000)
        = some (3000000 - 1000000) from rfl]
    simp only [Option.some.injEq]
    norm_num

/-- C3 counterexample: the numeric cleaner passes a negative input
through, so a present result need not be a non-negative float. -/
theorem clean_numeric_negative_cex :
    clean_numeric extTriv (NumVal.num (-5)) = some (-5)
    ∧ ¬(0 : ℚ) ≤ -5 := by
  constructor
  · rw [show clean_numeric extTriv (NumVal.num (-5))
        = if (-5 : ℚ) = 0 then Option.none else some (-5) from rfl,
      if_neg (by norm_num)]
  · norm_num

/-- C3 amended: absent, empty-string, or numerically-zero inputs clean to
absent; a nonzero number converts to itself; a non-empty string converts
through the external `float` parser (absent exactly when that parser
raises) — but a present result is not guaranteed non-negative. -/
theorem clean_numeric_cases (ext : Ext) :
    clean_numeric ext NumVal.absent = Option.none
    ∧ clean_numeric ext (NumVal.str "") = Option.none
    ∧ clean_numeric ext (NumVal.num 0) = Option.none
    ∧ (∀ q : ℚ, q ≠ 0 → clean_numeric ext (NumVal.num q) = some q)
    ∧ (∀ s : String, s ≠ "" →
        clean_numeric ext (NumVal.str s) = ext.pyFloat s) := by
  refine ⟨rfl, ?_, ?_, ?_, ?_⟩
  · rw [show clean_numeric ext (NumVal.str "")
        = if ("" : String) = "" then Option.none else ext.pyFloat ""
        from rfl, if_pos rfl]
  · rw [show clean_numeric ext (NumVal.num 0)
        = if (0 : ℚ) = 0 then Option.none else some 0 from rfl, if_pos rfl]
  · intro q hq
    rw [show clean_numeric ext (NumVal.num q)
        = if q = 0 then Option.none else some q from rfl, if_neg hq]
  · intro s hs
    rw [show clean_numeric ext (NumVal.str s)
        = if s = "" then Option.none else ext.pyFloat s from rfl, if_neg hs]

/-- C3 amended witness: a nonzero number passes through and a non-numeric
string cleans to absent. -/
theorem clean_numeric_cases_witness :
    clean_numeric extTriv (NumVal.num 7) = some 7
    ∧ clean_numeric extTriv (NumVal.str "abc") = Option.none := by
  constructor
  · exact (clean_numeric_cases extTriv).2.2.2.1 7 (by norm_num)
  · rw [(clean_numeric_cases extTriv).2.2.2.2 "abc" (by decide)]
    rfl

/-- C7: The date parser returns absent for absent input, an
already-structured date unchanged, the epoch 1899-12-30 plus `d` days for
a numeric input `d`, and the external generic parser's result on a string
(absent exactly when that parser fails); applied by the transformer it is
total, so it never raises, and the transformed column is its pointwise
image. -/
theorem parse_excel_date_cases (ext : Ext) :
    parse_excel_date ext DateInput.absent = Option.none
    ∧ (∀ d : ℚ, parse_excel_date ext (DateInput.date d) = some d)
    ∧ (∀ q : ℚ, parse_excel_date ext (DateInput.num q)
        = some (excelEpoch + q))
    ∧ (∀ s : String, parse_excel_date ext (DateInput.str s)
        = ext.toDatetime s)
    ∧ (∀ r : RawRow, (transform_row ext r).ReleaseDate_Parsed
        = parse_excel_date ext r.ReleaseDate) :=
  ⟨rfl, fun _ => rfl, fun _ => rfl, fun _ => rfl, fun _ => rfl⟩

/-- C9: Date parsing is idempotent: feeding any parse result back into the
parser as an already-structured date returns it unchanged, so parsing
twice equals parsing once. -/
theorem parse_excel_date_idem (ext : Ext) (v : DateInput) :
    (parse_excel_date ext v).bind
        (fun d => parse_excel_date ext (DateInput.date d))
      = parse_excel_date ext v := by
  cases v with
  | absent => rfl
  | date d => rfl
  | num q => rfl
  | str s =>
    rw [show parse_excel_date ext (DateInput.str s) = ext.toDatetime s
      from rfl]
    cases ext.toDatetime s with
    | none => rfl
    | some d => rfl

/-- C10: In every fact row the loader builds, the `TimeID` foreign key and
the `RunTimeMinutes` measure are both derived from the row's
`RunTimeMinutes` cell — equal `some n` when it holds `n`, both null when
it is absent — and the fact attempt is completely independent of the
row's `ParsedDate`. -/
theorem fact_timeid_runtime (r : CleanRow) :
    (∀ (k : Int) (fv : FactVals), factAttempt r = some (k, fv) →
      fv.timeId = fv.runTime
      ∧ (∀ n : Int, r.RunTimeMinutes = IdVal.val n → fv.timeId = some n)
      ∧ (r.RunTimeMinutes = IdVal.absent → fv.timeId = Option.none))
    ∧ ∀ d, factAttempt { r with ReleaseDate_Parsed := d }
        = factAttempt r := by
  constructor
  · intro k fv h
    unfold factAttempt at h
    rcases h1 : reqInt r.FilmID with _ | k0 <;> rw [h1] at h
    · exact Option.noConfusion h
    rcases h2 : optInt r.DirectorID with _ | dir <;> rw [h2] at h
    · exact Option.noConfusion h
    rcases h3 : optInt r.StudioID with _ | stu <;> rw [h3] at h
    · exact Option.noConfusion h
    rcases h4 : optInt r.GenreID with _ | gen <;> rw [h4] at h
    · exact Option.noConfusion h
    rcases h5 : optInt r.CountryID with _ | cou <;> rw [h5] at h
    · exact Option.noConfusion h
    rcases h6 : optInt r.LanguageID with _ | lan <;> rw [h6] at h
    · exact Option.noConfusion h
    rcases h7 : optInt r.RunTimeMinutes with _ | tid <;> rw [h7] at h
    · exact Option.noConfusion h
    rcases h8 : intOrZero r.OscarNominations with _ | nom <;> rw [h8] at h
    · exact Option.noConfusion h
    rcases h9 : intOrZero r.OscarWins with _ | win <;> rw [h9] at h
    · exact Option.noConfusion h
    have hp := Option.some.inj h
    have hfv : fv = ⟨dir, stu, gen, cou, lan, tid, r.BudgetDollars_Clean,
        r.BoxOfficeDollars_Clean, nom, win, tid, r.ProfitDollars,
        r.ROI⟩ :=
      (congrArg Prod.snd hp).symm
    subst hfv
    refine ⟨rfl, ?_, ?_⟩
    · intro n hn
      rw [hn] at h7
      have : some n = tid := Option.some.inj h7
      exact this ▸ rfl
    · intro hn
      rw [hn] at h7
      have : Option.none = tid := Option.some.inj h7
      exact this ▸ rfl
  · intro d
    rfl

/-- C10 witness: for the row with film id 5 and runtime 99, the fact
attempt's `TimeID` and `RunTimeMinutes` agree and equal 99. -/
theorem fact_timeid_runtime_witness :
    factRT99.timeId = factRT99.runTime ∧ factRT99.timeId = some 99 := by
  have h := (fact_timeid_runtime rowFact5).1 5 factRT99 rfl
  exact ⟨h.1, h.2.1 99 rfl⟩

/-- C4 counterexample: loading the batch [good row with film id 1, bad
row] from an empty fact table counts the first row's insert as succeeded
(`inserted = 1`) yet commits an empty table, because the rollback raised
by the second row discards the whole pending transaction; the same good
row alone does persist. So the commit does NOT persist rows that
succeeded before a later row failed. -/
theorem fact_commit_discards_cex :
    (load_fact_table [rowFilm1, rowBlank] ([] : Table FactVals)).inserted = 1
    ∧ (load_fact_table [rowFilm1, rowBlank] ([] : Table FactVals)).errors = 1
    ∧ (load_fact_table [rowFilm1, rowBlank] ([] : Table FactVals)).table = []
    ∧ (load_fact_table [rowFilm1] ([] : Table FactVals)).table
        = [(1, factBlank)] :=
  ⟨rfl, rfl, rfl, rfl⟩

/-- C4 amended: the fact loader runs one cumulative transaction for the
whole batch; a row failure rolls back the ENTIRE pending transaction —
every uncommitted insert so far, not just the failing statement — the
loader proceeds with the next row, and the single commit after the batch
persists exactly the rows that succeeded after the last failure (the
final table is independent of everything before the last failing row),
while errors still accumulate across the whole batch. -/
theorem load_fact_rollback_all (df1 df2 : List CleanRow) (r : CleanRow)
    (t : Table FactVals) (h : factAttempt r = Option.none) :
    (load_fact_table (df1 ++ r :: df2) t).table
        = (load_fact_table df2 t).table
    ∧ (load_fact_table (df1 ++ r :: df2) t).errors
        = (load_fact_table df1 t).errors + 1
          + (load_fact_table df2 t).errors := by
  constructor
  · rw [load_fact_tab, load_fact_tab, List.map_append, List.map_cons, h,
      factTab_append]
    rfl
  · rw [load_fact_errs, load_fact_errs, load_fact_errs, List.map_append,
      List.map_cons, h, countFails_append]
    rw [show countFails (Option.none :: df2.map factAttempt)
        = countFails (df2.map factAttempt) + 1 from rfl]
    omega

/-- C4 amended witness: with a failing middle row, the final fact table is
the one obtained from the suffix alone. -/
theorem load_fact_rollback_all_witness :
    (load_fact_table ([rowFilm1] ++ rowBlank :: [rowFilm2])
        ([] : Table FactVals)).table
      = (load_fact_table [rowFilm2] ([] : Table FactVals)).table :=
  (load_fact_rollback_all [rowFilm1] [rowFilm2] rowBlank [] rfl).1

/-- C5 counterexample: two rows share runtime key 120, the first without a
parsed date and the second with one. Deduplicating FIRST and then
excluding dateless rows — the claim's order — leaves nothing to insert,
but the loader (which excludes first, then deduplicates) inserts the
second-encountered row; so the claim's description of the projection
order, and its consequence that only the first-encountered row with a
key is ever inserted, are both false of the code. -/
theorem time_loader_order_cex :
    rowTime120NoDate.RunTimeMinutes = rowTime120Dated.RunTimeMinutes
    ∧ time_data_claimOrder [rowTime120NoDate, rowTime120Dated] = []
    ∧ (load_dimension_time [rowTime120NoDate, rowTime120Dated]
          ([] : Table TimeVals)).table
        = [(120, ⟨some 10, Option.none, Option.none, Option.none,
            Option.none⟩)] :=
  ⟨rfl, rfl, rfl⟩

/-- C5 amended: the time loader first excludes every row whose parsed date
is absent and then deduplicates the remaining rows by `RunTimeMinutes`
keeping the first per key: every projected row has a present date, the
projected row carrying key `k` is exactly the first date-bearing row of
the batch with that key, and every inserted time row comes from such a
projected row. -/
theorem time_loader_projection (df : List CleanRow) (t : Table TimeVals) :
    (∀ r, r ∈ time_data df → hasDate r = true)
    ∧ (∀ (c : IdVal) (r : CleanRow),
        (r ∈ time_data df ∧ r.RunTimeMinutes = c) ↔
          (df.filter hasDate).find? (fun x => x.RunTimeMinutes == c)
            = some r)
    ∧ (∀ e, e ∈ (load_dimension_time df t).table →
        e ∈ t ∨ ∃ r, r ∈ time_data df ∧ timeAttempt r = some e) := by
  refine ⟨?_, ?_, ?_⟩
  · intro r hr
    unfold time_data at hr
    have hmem := dedupByKey_sub (fun x => x.RunTimeMinutes)
      (df.filter hasDate) [] r hr
    exact (List.mem_filter.1 hmem).2
  · intro c r
    exact dedupByKey_first (fun x => x.RunTimeMinutes) (df.filter hasDate)
      [] c (by simp) r
  · intro e he
    rw [load_dimension_time_tab] at he
    rcases dimTab_mem_src _ t e he with hl | hr
    · exact Or.inl hl
    · obtain ⟨r, hr1, hr2⟩ := List.mem_map.1 hr
      exact Or.inr ⟨r, hr1, hr2⟩

/-- C5 amended witness: the dated row with runtime 120 is projected, and
every projected row indeed carries a date. -/
theorem time_loader_projection_witness :
    hasDate rowTime120Dated = true :=
  (time_loader_projection [rowTime120NoDate, rowTime120Dated]
      ([] : Table TimeVals)).1
    rowTime120Dated (by decide)

/-- C6: Per-row failure isolation in the dimension loaders: a failing row
of the film loader leaves the table exactly as if the loader continued
from the prior state over the remaining rows, contributing only one error
to the tally; every well-formed id projected for a generic dimension ends
up keyed in its table no matter what other rows contain; and a row's
`FilmID` — malformed or not — has no effect whatsoever on the director
dimension produced by the load stage. -/
theorem loader_row_isolation (df1 df2 : List CleanRow) (r : CleanRow)
    (t : Table FilmVals) (h : filmAttempt r = Option.none) :
    (load_dimension_film (df1 ++ r :: df2) t).table
        = (load_dimension_film df2
            (load_dimension_film df1 t).table).table
    ∧ (load_dimension_film (df1 ++ r :: df2) t).errors
        = (load_dimension_film df1 t).errors + 1
          + (load_dimension_film df2 t).errors
    ∧ (∀ (dn : String) (proj : CleanRow → IdVal) (df : List CleanRow)
        (u : Table String) (n : Int), IdVal.val n ∈ df.map proj →
        hasKey (load_dimension_generic dn proj df u).table n = true)
    ∧ (∀ (df3 df4 : List CleanRow) (r2 : CleanRow) (f : IdVal) (w : DW),
        (run_etl_load (df3 ++ { r2 with FilmID := f } :: df4) w).dimDirector
          = (run_etl_load (df3 ++ r2 :: df4) w).dimDirector) := by
  refine ⟨?_, ?_, ?_, ?_⟩
  · rw [load_dimension_film_tab, load_dimension_film_tab,
      load_dimension_film_tab, List.map_append, List.map_cons, h,
      dimTab_append]
    rfl
  · rw [load_dimension_film_errs, load_dimension_film_errs,
      load_dimension_film_errs, List.map_append, List.map_cons, h,
      countFails_append]
    rw [show countFails (Option.none :: df2.map filmAttempt)
        = countFails (df2.map filmAttempt) + 1 from rfl]
    omega
  · intro dn proj df u n hmem
    have h1 : IdVal.val n ∈ (df.map proj).filter nonAbsent :=
      List.mem_filter.2 ⟨hmem, rfl⟩
    have h2 : IdVal.val n ∈ genericIds proj df :=
      dedupByKey_id_mem _ [] _ (by simp) h1
    have h3 : some (n, dn ++ "_" ++ toString n)
        ∈ (genericIds proj df).map (genericAttempt dn) :=
      List.mem_map.2 ⟨IdVal.val n, h2, rfl⟩
    rw [load_dimension_generic_tab]
    exact dimTab_hasKey_of_item h3 u
  · intro df3 df4 r2 f w
    show (load_dimension_generic "Director" (fun x => x.DirectorID)
        (df3 ++ { r2 with FilmID := f } :: df4) w.dimDirector).table
      = (load_dimension_generic "Director" (fun x => x.DirectorID)
        (df3 ++ r2 :: df4) w.dimDirector).table
    have hmap : (df3 ++ { r2 with FilmID := f } :: df4).map
          (fun x => x.DirectorID)
        = (df3 ++ r2 :: df4).map (fun x => x.DirectorID) := by
      rw [List.map_append, List.map_append, List.map_cons, List.map_cons]
    unfold load_dimension_generic genericIds
    rw [hmap]

/-- C6 witness: a leading bad row (absent film id) does not stop the film
loader from loading the following good row. -/
theorem loader_row_isolation_witness :
    (load_dimension_film ([] ++ rowBlank :: [rowDir7a])
        ([] : Table FilmVals)).table
      = (load_dimension_film [rowDir7a]
          (load_dimension_film [] ([] : Table FilmVals)).table).table :=
  (loader_row_isolation [] [rowDir7a] rowBlank [] rfl).1

/-- C8: The generic dimension loader projects each present id value
exactly once regardless of how many source rows carry it, synthesizes the
deterministic name `display_name_id` for it, only ever appends to the
dimension table (existing rows are untouched, in place and content), and
after the load the row under a previously-absent projected id is exactly
the synthesized pair, while a previously-present id keeps its old row. -/
theorem generic_dimension_upsert (dn : String) (proj : CleanRow → IdVal)
    (df : List CleanRow) (t : Table String) (n : Int)
    (h : IdVal.val n ∈ df.map proj) :
    List.count (IdVal.val n) (genericIds proj df) = 1
    ∧ genericAttempt dn (IdVal.val n) = some (n, dn ++ "_" ++ toString n)
    ∧ (∃ a, (load_dimension_generic dn proj df t).table = t ++ a)
    ∧ (hasKey t n = true →
        lookupKey (load_dimension_generic dn proj df t).table n
          = lookupKey t n)
    ∧ (hasKey t n = false →
        lookupKey (load_dimension_generic dn proj df t).table n
          = some (dn ++ "_" ++ toString n)) := by
  have h1 : IdVal.val n ∈ (df.map proj).filter nonAbsent :=
    List.mem_filter.2 ⟨h, rfl⟩
  have h2 : IdVal.val n ∈ genericIds proj df :=
    dedupByKey_id_mem _ [] _ (by simp) h1
  refine ⟨?_, rfl, ?_, ?_, ?_⟩
  · exact List.count_eq_one_of_mem (dedupByKey_id_nodup _ []) h2
  · rw [load_dimension_generic_tab]
    exact dimTab_exists_append _ t
  · intro hk
    rw [load_dimension_generic_tab]
    exact lookupKey_dimTab_of_hasKey _ hk
  · intro hk
    rw [load_dimension_generic_tab]
    have hmem : some (n, dn ++ "_" ++ toString n)
        ∈ (genericIds proj df).map (genericAttempt dn) :=
      List.mem_map.2 ⟨IdVal.val n, h2, rfl⟩
    refine dimTab_lookup_fresh _ t n _ hk hmem ?_
    intro v2 hv2
    obtain ⟨idv, hidv, hatt⟩ := List.mem_map.1 hv2
    unfold genericAttempt at hatt
    cases hidv2 : reqInt idv with
    | none =>
      rw [hidv2] at hatt
      exact Option.noConfusion hatt
    | some m =>
      rw [hidv2] at hatt
      have hp := Option.some.inj hatt
      have hm : m = n := congrArg Prod.fst hp
      have hv : dn ++ "_" ++ toString m = v2 := congrArg Prod.snd hp
      rw [← hv, hm]

/-- C8 witness: two rows sharing director id 7 project it once, and the
loader leaves `Director_7` under key 7 in an initially empty director
dimension. -/
theorem generic_dimension_upsert_witness :
    List.count (IdVal.val 7)
        (genericIds (fun x => x.DirectorID) [rowDir7a, rowDir7b]) = 1
    ∧ lookupKey (load_dimension_generic "Director"
          (fun x => x.DirectorID) [rowDir7a, rowDir7b]
          ([] : Table String)).table 7
        = some ("Director" ++ "_" ++ toString (7 : Int)) := by
  have h := generic_dimension_upsert "Director" (fun x => x.DirectorID)
    [rowDir7a, rowDir7b] ([] : Table String) 7 (by decide)
  exact ⟨h.1, h.2.2.2.2 rfl⟩

end FilmDW
